import Mathlib

/-!
Verification of the use-local-storage synchronization engine
(src/useLocalStorage.ts, src/error.ts).

JavaScript values that flow through the hook are shallowly embedded:
JSON-representable values as the inductive `Json` (numbers restricted to
integers; floating point is outside the embedding), JS strings as
`List Char`, `undefined` as `Option.none`, thrown values as `Except`
errors.  The platform collaborators the source delegates to
(`JSON.stringify` / `JSON.parse`, `localStorage`, the event loop's
`setTimeout` / `clearTimeout`, React's `useCallback`) are modelled at
their documented interfaces; repository code is translated line by line.
-/

/-- JSON-representable values as produced and consumed by the default
codec.  `num` carries an integer: float formatting is outside the scope
of this embedding.  Object fields are kept in insertion order, mirroring
JS property order. -/
inductive Json where
  | null : Json
  | bool (b : Bool) : Json
  | num (n : Int) : Json
  | str (s : List Char) : Json
  | arr (elems : List Json) : Json
  | obj (fields : List (List Char × Json)) : Json

/-- Decimal digit character for a value below ten (code point 48 is the
zero digit). -/
def digitChar (d : Nat) : Char := Char.ofNat (48 + d)

/-- Digit value of a decimal digit character, `none` on anything else. -/
def charToDigit (c : Char) : Option Nat :=
  if 48 ≤ c.toNat ∧ c.toNat ≤ 57 then some (c.toNat - 48) else none

/-- Lowercase hex digit character for a value below sixteen
(`JSON.stringify` prints control characters as lowercase u-escapes;
code point 97 is the letter a, standing for value ten). -/
def hexDigit (d : Nat) : Char :=
  if d ≤ 9 then digitChar d else Char.ofNat (87 + d)

/-- Hex digit value of a character, `none` on anything else
(`JSON.parse` accepts both letter cases in u-escapes). -/
def hexVal (c : Char) : Option Nat :=
  match charToDigit c with
  | some d => some d
  | none =>
    if 97 ≤ c.toNat ∧ c.toNat ≤ 102 then some (c.toNat - 87)
    else if 65 ≤ c.toNat ∧ c.toNat ≤ 70 then some (c.toNat - 55)
    else none

/-- Decimal digit string of a natural number, most significant digit
first, as the platform prints integral numbers. -/
def natToChars (n : Nat) : List Char :=
  if _h : n < 10 then [digitChar n]
  else natToChars (n / 10) ++ [digitChar (n % 10)]
termination_by n
decreasing_by exact Nat.div_lt_self (by omega) (by omega)

/-- Accumulate decimal digit characters into the number they denote. -/
def digitsToNat (ds : List Char) : Nat :=
  ds.foldl (fun a c => a * 10 + ((charToDigit c).getD 0)) 0

/-- Head character of the remaining input is not a decimal digit (or the
input is empty): the condition under which a maximal-munch number parse
stops exactly at the printed digits. -/
def goodRest : List Char → Bool
  | [] => true
  | c :: _ => (charToDigit c).isNone

/-- Maximal-munch decimal natural number parse, as `JSON.parse` consumes
the digits of an integral number. -/
def parseNat (cs : List Char) : Option (Nat × List Char) :=
  let ds := cs.takeWhile (fun c => (charToDigit c).isSome)
  if ds.isEmpty then none
  else some (digitsToNat ds, cs.dropWhile (fun c => (charToDigit c).isSome))

/-- Decimal rendering of an integer, as the platform prints integral
numbers (no negative zero: the model's integers have none). -/
def intToChars (n : Int) : List Char :=
  if n < 0 then '-' :: natToChars n.natAbs else natToChars n.toNat

/-- Modelled from the spec: escaping performed by the platform
`JSON.stringify` (an external collaborator of the codec) on one string
character — quote and backslash get two-character escapes, the named
control characters likewise, the remaining control characters a
`u`-escape, anything else is emitted literally. -/
def escapeChar (c : Char) : List Char :=
  if c = '\"' then ['\\', '\"']
  else if c = '\\' then ['\\', '\\']
  else if c = '\x08' then ['\\', 'b']
  else if c = '\x0c' then ['\\', 'f']
  else if c = '\n' then ['\\', 'n']
  else if c = '\r' then ['\\', 'r']
  else if c = '\t' then ['\\', 't']
  else if c.toNat < 32 then
    ['\\', 'u', '0', '0', hexDigit (c.toNat / 16), hexDigit (c.toNat % 16)]
  else [c]

/-- Escape every character of a string body. -/
def escapeString : List Char → List Char
  | [] => []
  | c :: s => escapeChar c ++ escapeString s

mutual
/-- Modelled from the spec: the platform `JSON.stringify` (the external
collaborator the default codec delegates to) restricted to
JSON-representable values — structural text, lossless for numbers,
strings, booleans, null and nested mappings/sequences; object fields in
property order, no interstitial whitespace. -/
def stringify : Json → List Char
  | .num n => intToChars n
  | .str s => '\"' :: (escapeString s ++ ['\"'])
  | .null => 'n' :: 'u' :: 'l' :: 'l' :: []
  | .bool true => 't' :: 'r' :: 'u' :: 'e' :: []
  | .bool false => 'f' :: 'a' :: 'l' :: 's' :: 'e' :: []
  | .arr [] => '[' :: ']' :: []
  | .arr (x :: xs) => '[' :: ((stringify x ++ stringifyTail xs) ++ [']'])
  | .obj [] => '\x7b' :: '\x7d' :: []
  | .obj ((k, v) :: kvs) =>
      '\x7b' ::
        ((('\"' :: (escapeString k ++ ('\"' :: ':' :: stringify v))) ++
          stringifyFieldTail kvs) ++ ['\x7d'])

/-- Comma-prefixed rendering of the remaining array elements. -/
def stringifyTail : List Json → List Char
  | [] => []
  | x :: xs => ',' :: (stringify x ++ stringifyTail xs)

/-- Comma-prefixed rendering of the remaining object fields. -/
def stringifyFieldTail : List (List Char × Json) → List Char
  | [] => []
  | (k, v) :: kvs =>
      ',' :: (('\"' :: (escapeString k ++ ('\"' :: ':' :: stringify v))) ++
        stringifyFieldTail kvs)
end


/-- Rendering of one object field: quoted escaped key, colon, value. -/
def fieldChars (k : List Char) (v : Json) : List Char :=
  '\"' :: (escapeString k ++ ('\"' :: ':' :: stringify v))

/-- Escape decodings accepted after a backslash by `JSON.parse`. -/
def unescapeChar : Char → Option Char
  | '\"' => some '\"'
  | '\\' => some '\\'
  | '/' => some '/'
  | 'b' => some '\x08'
  | 'f' => some '\x0c'
  | 'n' => some '\n'
  | 'r' => some '\r'
  | 't' => some '\t'
  | _ => none

/-- Body of a JSON string after the opening quote: returns the decoded
characters and the input remaining after the closing quote. -/
def parseStringBody : List Char → Option (List Char × List Char)
  | [] => none
  | c :: cs =>
    if c = '\"' then some ([], cs)
    else if c = '\\' then
      match cs with
      | [] => none
      | e :: cs2 =>
        if e = 'u' then
          match cs2 with
          | h1 :: h2 :: h3 :: h4 :: cs3 =>
            match hexVal h1, hexVal h2, hexVal h3, hexVal h4 with
            | some a, some b, some c2, some d =>
              (parseStringBody cs3).map
                (fun p => (Char.ofNat (((a * 16 + b) * 16 + c2) * 16 + d) :: p.1, p.2))
            | _, _, _, _ => none
          | _ => none
        else
          match unescapeChar e with
          | some u => (parseStringBody cs2).map (fun p => (u :: p.1, p.2))
          | none => none
    else (parseStringBody cs).map (fun p => (c :: p.1, p.2))

mutual
/-- Modelled from the spec: the platform `JSON.parse` (the external
collaborator the default codec delegates to) as a fuelled
recursive-descent parse of one value, returning the value and the
unconsumed input.  Strict grammar without interstitial whitespace —
exactly the text the model's `stringify` emits. -/
def parseValue : Nat → List Char → Option (Json × List Char)
  | 0, _ => none
  | _ + 1, [] => none
  | fuel + 1, c :: cs =>
    if c = 'n' then
      match cs with
      | 'u' :: 'l' :: 'l' :: rest => some (.null, rest)
      | _ => none
    else if c = 't' then
      match cs with
      | 'r' :: 'u' :: 'e' :: rest => some (.bool true, rest)
      | _ => none
    else if c = 'f' then
      match cs with
      | 'a' :: 'l' :: 's' :: 'e' :: rest => some (.bool false, rest)
      | _ => none
    else if c = '\"' then
      (parseStringBody cs).map (fun p => (Json.str p.1, p.2))
    else if c = '[' then
      match cs with
      | [] => none
      | c2 :: cs2 =>
        if c2 = ']' then some (.arr [], cs2)
        else (parseElems fuel (c2 :: cs2)).map (fun p => (Json.arr p.1, p.2))
    else if c = '\x7b' then
      match cs with
      | [] => none
      | c2 :: cs2 =>
        if c2 = '\x7d' then some (.obj [], cs2)
        else (parseMembers fuel (c2 :: cs2)).map (fun p => (Json.obj p.1, p.2))
    else if c = '-' then
      (parseNat cs).map (fun p => (Json.num (-(p.1 : Int)), p.2))
    else
      match charToDigit c with
      | some _ => (parseNat (c :: cs)).map (fun p => (Json.num (p.1 : Int), p.2))
      | none => none

/-- Elements of a non-empty array after the opening bracket. -/
def parseElems : Nat → List Char → Option (List Json × List Char)
  | 0, _ => none
  | fuel + 1, cs =>
    match parseValue fuel cs with
    | none => none
    | some (v, rest) =>
      match rest with
      | [] => none
      | c :: rest2 =>
        if c = ',' then (parseElems fuel rest2).map (fun p => (v :: p.1, p.2))
        else if c = ']' then some ([v], rest2)
        else none

/-- Fields of a non-empty object after the opening brace. -/
def parseMembers : Nat → List Char → Option (List (List Char × Json) × List Char)
  | 0, _ => none
  | fuel + 1, cs =>
    match cs with
    | [] => none
    | c :: cs2 =>
      if c = '\"' then
        match parseStringBody cs2 with
        | none => none
        | some (k, rest) =>
          match rest with
          | [] => none
          | c2 :: rest2 =>
            if c2 = ':' then
              match parseValue fuel rest2 with
              | none => none
              | some (v, rest3) =>
                match rest3 with
                | [] => none
                | c3 :: rest4 =>
                  if c3 = ',' then
                    (parseMembers fuel rest4).map (fun p => ((k, v) :: p.1, p.2))
                  else if c3 = '\x7d' then some ([(k, v)], rest4)
                  else none
            else none
      else none
end


/-- Modelled from the spec: the platform `JSON.parse` on a whole input —
one value which must consume the input exactly, otherwise a parse
failure.  The fuel is sufficient for every input the model's `stringify`
emits (`jsize_le_length` below). -/
def parseJson (cs : List Char) : Option Json :=
  match parseValue (cs.length + 1) cs with
  | some (v, []) => some v
  | _ => none

mutual
/-- Parser fuel needed for a value: one unit per value node plus one per
list element. -/
def jsize : Json → Nat
  | .arr xs => 1 + jsizeList xs
  | .obj kvs => 1 + jsizeFields kvs
  | .null | .bool _ | .num _ | .str _ => 1

/-- Parser fuel needed for the elements of an array. -/
def jsizeList : List Json → Nat
  | [] => 0
  | x :: xs => 1 + jsize x + jsizeList xs

/-- Parser fuel needed for the fields of an object. -/
def jsizeFields : List (List Char × Json) → Nat
  | [] => 0
  | (_, v) :: kvs => 1 + jsize v + jsizeFields kvs
end


/-- A thrown JS `Error` value, carrying its message. -/
structure JsError where
  message : String
deriving DecidableEq

/-- The second constructor argument of `LocalStorageError` as the source
actually passes it: `setValue` passes the caught `Error` itself, while
`readValue` passes an object literal whose `cause` property holds the
caught error (an options-bag, not an `Error`). -/
inductive ErrorCause where
  | errorValue (e : JsError)
  | optionsBag (e : JsError)
deriving DecidableEq

/-- `LocalStorageError` from src/error.ts: an `Error` subclass whose
constructor sets `name` to "LocalStorageError" and stores the second
argument in `cause`. -/
structure LocalStorageError where
  name : String
  message : String
  cause : Option ErrorCause
deriving DecidableEq

/-- JS property access `.message` on the value stored in `cause`: an
`Error` has a `message` property, a plain options-bag object does not
(the access yields `undefined`). -/
def causeMessage : ErrorCause → Option String
  | .errorValue e => some e.message
  | .optionsBag _ => none

/-- `Serializer<T>` from src/useLocalStorage.ts: a pluggable codec whose
two directions may throw (modelled with `Except`); synchronous and
asynchronous codecs are awaited uniformly, so both collapse to their
resolved result. -/
structure Serializer where
  serialize : Json → Except JsError (List Char)
  deserialize : List Char → Except JsError Json

/-- `JsonSerializer` from src/useLocalStorage.ts lines 12-20: delegates
to the platform JSON codec; `JSON.parse` throws a `SyntaxError` on
non-decodable text. -/
def jsonSerializer : Serializer where
  serialize v := .ok (stringify v)
  deserialize s :=
    match parseJson s with
    | some v => .ok v
    | none => .error ⟨"Unexpected token in JSON"⟩

/-- The external store's entries: a key-to-text mapping. -/
abbrev Store := List (String × List Char)

/-- Lookup in a string-keyed assoc list (first match). -/
def assocLookup {α : Type} : List (String × α) → String → Option α
  | [], _ => none
  | (k, v) :: rest, key => if k = key then some v else assocLookup rest key

/-- Replace-or-append update of a string-keyed assoc list, as both a JS
object spread-with-override and `Storage.setItem` behave. -/
def assocSet {α : Type} (l : List (String × α)) (key : String) (v : α) :
    List (String × α) :=
  if (assocLookup l key).isSome then
    l.map (fun kv => if kv.1 = key then (key, v) else kv)
  else l ++ [(key, v)]

/-- Delete every binding of a key from a string-keyed assoc list. -/
def assocRemove {α : Type} (l : List (String × α)) (key : String) :
    List (String × α) :=
  l.filter (fun kv => !(kv.1 == key))

/-- `window.localStorage.getItem` (null for a missing key). -/
def getItem (store : Store) (key : String) : Option (List Char) :=
  assocLookup store key

/-- `window.localStorage.setItem`. -/
def setItem (store : Store) (key : String) (text : List Char) : Store :=
  assocSet store key text

/-- `window.localStorage.removeItem` (idempotent). -/
def removeItem (store : Store) (key : String) : Store :=
  assocRemove store key

/-- `readValue` from src/useLocalStorage.ts lines 28-49: absent window
or absent entry yield `undefined`; a decode failure is wrapped in a
`LocalStorageError` whose second constructor argument is the object
literal holding the caught error under its `cause` property
(`ErrorCause.optionsBag`). -/
def readValue (hasWindow : Bool) (store : Store) (key : String)
    (serializer : Serializer) : Except LocalStorageError (Option Json) :=
  if !hasWindow then .ok none
  else
    match getItem store key with
    | none => .ok none
    | some item =>
      match serializer.deserialize item with
      | .ok v => .ok (some v)
      | .error e =>
        .error ⟨"LocalStorageError",
          "Error deserializing localStorage key \"" ++ key ++ "\"",
          some (.optionsBag e)⟩

/-- Result of a `setValue` call in the explicit-state embedding: the
store afterwards, whether the same-process "local-storage" event was
dispatched, and the returned/raised outcome. -/
structure SetValueResult where
  store : Store
  dispatched : Bool
  result : Except LocalStorageError Unit

/-- `setValue` from src/useLocalStorage.ts lines 51-73: no-op without a
window; no value removes the entry; otherwise encode, and only on encode
success write; the same-process "local-storage" event is dispatched
after a successful write or removal; a failure is rethrown as a
`LocalStorageError` built from the caught error itself
(`ErrorCause.errorValue`), leaving the store untouched. -/
def setValue (hasWindow : Bool) (store : Store) (key : String)
    (serializer : Serializer) (value : Option Json) : SetValueResult :=
  if !hasWindow then ⟨store, false, .ok ()⟩
  else
    match value with
    | none => ⟨removeItem store key, true, .ok ()⟩
    | some v =>
      match serializer.serialize v with
      | .ok text => ⟨setItem store key text, true, .ok ()⟩
      | .error e =>
        ⟨store, false,
          .error ⟨"LocalStorageError",
            "Error setting localStorage key \"" ++ key ++ "\"",
            some (.errorValue e)⟩⟩

/-- The Shared Value Cache: the jotai atom's record, a mapping from key
to cached decoded value; a binding to `none` is a key explicitly bound
to `undefined`. -/
abbrev Cache := List (String × Option Json)

/-- JS optional-index access `prev?.[key]`: `undefined` when the record
itself is `undefined`, when the key is unbound, and when the key is
bound to `undefined`. -/
def jsIndex (prev : Option Cache) (key : String) : Option Json :=
  match prev with
  | none => none
  | some c =>
    match assocLookup c key with
    | none => none
    | some v => v

/-- `JSON.stringify` on a cached JS value: `undefined` stringifies to
`undefined` (not a string). -/
def stringifyJs : Option Json → Option (List Char)
  | none => none
  | some v => some (stringify v)

/-- `isEqual` from src/useLocalStorage.ts lines 24-26: deep value
equality via `JSON.stringify` comparison. -/
def isEqual (a b : Option Json) : Bool := stringifyJs a == stringifyJs b

/-- `updateValue` from src/useLocalStorage.ts lines 111-119: the updater
passed to the shared atom — keep the previous record (or a fresh empty
one when the record was still `undefined`) when the new value is
deep-equal to the current one, otherwise spread and overwrite the key. -/
def updateValue (prev : Option Cache) (key : String)
    (newValue : Option Json) : Cache :=
  let currentValue := jsIndex prev key
  if isEqual currentValue newValue then prev.getD []
  else assocSet (prev.getD []) key newValue

/-- Per-observer state after the hook's effects: the error and loading
flags plus the shared cache atom's value. -/
structure ObserverState where
  error : Option LocalStorageError
  cache : Option Cache
  isLoading : Bool

/-- `readValueFromStorage` from src/useLocalStorage.ts lines 121-132:
one read-and-update cycle — on success clear the error and update the
cache with the decoded value, on failure set the error and update the
cache with `undefined`; either way loading ends. -/
def readValueFromStorage (hasWindow : Bool) (store : Store) (key : String)
    (serializer : Serializer) (st : ObserverState) : ObserverState :=
  match readValue hasWindow store key serializer with
  | .ok newValue => ⟨none, some (updateValue st.cache key newValue), false⟩
  | .error e => ⟨some e, some (updateValue st.cache key none), false⟩

/-- The read cycle over the combined world state: the read path calls
only `getItem`, so in the explicit-state embedding the store passes
through unchanged. -/
def readCycle (hasWindow : Bool) (key : String) (serializer : Serializer)
    (store : Store) (st : ObserverState) : ObserverState × Store :=
  (readValueFromStorage hasWindow store key serializer st, store)

/-- JS nullish coalescing `a ?? b` on the hook's value types. -/
def nullishCoalesce (a b : Option Json) : Option Json :=
  match a with
  | none => b
  | some .null => b
  | some v => some v

/-- The hook's exposed `value` (src/useLocalStorage.ts lines 159-162):
`undefined` when an error is set, otherwise the cached value for the
key, falling back to `options?.initialValue` under `??`. -/
def exposedValue (st : ObserverState) (key : String)
    (initialValue : Option Json) : Option Json :=
  match st.error with
  | some _ => none
  | none => nullishCoalesce (jsIndex st.cache key) initialValue

/-- Observer-side debounce state: the expiry time of the pending
`setTimeout` handle held in `debounceTimeoutRef`, if any, plus how many
debounced re-reads (`readValueFromStorage` runs) timers have triggered. -/
structure DebounceState where
  pending : Option Nat
  reads : Nat
deriving DecidableEq

/-- Modelled from the spec: the event loop runs a due timer before
delivering a later event — a pending timer whose expiry has passed fires
and triggers the scheduled re-read. -/
def fireDue (s : DebounceState) (now : Nat) : DebounceState :=
  match s.pending with
  | some expiry => if expiry ≤ now then ⟨none, s.reads + 1⟩ else s
  | none => s

/-- `handleStorageChange` from src/useLocalStorage.ts lines 136-141 at
an arrival time: any still-pending timer is cleared (`clearTimeout`) and
a single fresh 50 ms timer is scheduled (`setTimeout`); a timer already
due has fired beforehand (`fireDue`). -/
def handleStorageChange (s : DebounceState) (now : Nat) : DebounceState :=
  let s2 := fireDue s now
  ⟨some (now + 50), s2.reads⟩

/-- A burst of change notifications at the given arrival times. -/
def runBurst (s : DebounceState) (ts : List Nat) : DebounceState :=
  ts.foldl handleStorageChange s

/-- After the burst settles the surviving timer, if any, fires. -/
def settleBurst (s : DebounceState) : DebounceState :=
  match s.pending with
  | some _ => ⟨none, s.reads + 1⟩
  | none => s

/-- Arrival times are ordered and every consecutive gap lies inside the
50 ms debounce window. -/
def burstOk : List Nat → Bool
  | [] => true
  | [_] => true
  | t1 :: t2 :: ts =>
      (decide (t1 ≤ t2) && decide (t2 < t1 + 50)) && burstOk (t2 :: ts)

/-- One render's inputs to the `useCallback` at src/useLocalStorage.ts
lines 163-166: the current key and the referential identity of the
memoized serializer (the `useMemo` at lines 105-108 yields a new
reference exactly when its `options?.serializer` dependency changed).
References are represented by numbers. -/
structure RenderInput where
  key : String
  serializerRef : Nat
deriving DecidableEq

/-- The `useCallback` dependency array `[key, serializer]` of the
returned `setValue`. -/
def setValueCallbackDeps (r : RenderInput) : String × Nat :=
  (r.key, r.serializerRef)

/-- Modelled from the spec: React's `useCallback` keeps the same
function reference across two renders of one hook instance exactly when
every entry of the dependency array is unchanged. -/
def setValueIdentityPreserved (r1 r2 : RenderInput) : Bool :=
  setValueCallbackDeps r1 == setValueCallbackDeps r2

/-- A codec whose two directions throw, as in the repository's error
tests. -/
def failingSerializer : Serializer where
  serialize _ := .error ⟨"Serialization failed"⟩
  deserialize _ := .error ⟨"Deserialization failed during read"⟩

theorem charToDigit_digitChar {d : Nat} (h : d < 10) :
    charToDigit (digitChar d) = some d := by
  interval_cases d <;> decide

theorem natToChars_head (n : Nat) :
    ∃ d tl, d < 10 ∧ natToChars n = digitChar d :: tl := by
  induction n using Nat.strong_induction_on with
  | _ n ih =>
    rw [natToChars]
    by_cases h : n < 10
    · exact ⟨n, [], h, by rw [dif_pos h]⟩
    · obtain ⟨d, tl, hd, htl⟩ := ih (n / 10) (Nat.div_lt_self (by omega) (by omega))
      exact ⟨d, tl ++ [digitChar (n % 10)], hd, by rw [dif_neg h, htl]; rfl⟩

theorem natToChars_all_digits (n : Nat) :
    ∀ c ∈ natToChars n, (charToDigit c).isSome := by
  induction n using Nat.strong_induction_on with
  | _ n ih =>
    rw [natToChars]
    by_cases h : n < 10
    · rw [dif_pos h]
      intro c hc
      simp only [List.mem_singleton] at hc
      subst hc
      rw [charToDigit_digitChar h]
      rfl
    · rw [dif_neg h]
      intro c hc
      rcases List.mem_append.mp hc with h1 | h2
      · exact ih (n / 10) (Nat.div_lt_self (by omega) (by omega)) c h1
      · simp only [List.mem_singleton] at h2
        subst h2
        rw [charToDigit_digitChar (Nat.mod_lt n (by omega))]
        rfl

theorem foldl_digits_append (l : List Char) (a : Nat) (d : Char) :
    (l ++ [d]).foldl (fun a c => a * 10 + ((charToDigit c).getD 0)) a =
      (l.foldl (fun a c => a * 10 + ((charToDigit c).getD 0)) a) * 10 +
        ((charToDigit d).getD 0) := by
  rw [List.foldl_append]
  rfl

theorem digitsToNat_natToChars (n : Nat) : digitsToNat (natToChars n) = n := by
  induction n using Nat.strong_induction_on with
  | _ n ih =>
    rw [natToChars]
    by_cases h : n < 10
    · rw [dif_pos h]
      simp [digitsToNat, charToDigit_digitChar h]
    · rw [dif_neg h]
      unfold digitsToNat
      rw [foldl_digits_append]
      have hrec := ih (n / 10) (Nat.div_lt_self (by omega) (by omega))
      unfold digitsToNat at hrec
      rw [hrec, charToDigit_digitChar (Nat.mod_lt n (by omega))]
      simp only [Option.getD_some]
      omega

theorem takeWhile_append_of_all {p : Char → Bool} :
    ∀ (l rest : List Char), (∀ c ∈ l, p c) →
      (∀ c, rest.head? = some c → p c = false) →
      (l ++ rest).takeWhile p = l ∧ (l ++ rest).dropWhile p = rest := by
  intro l
  induction l with
  | nil =>
    intro rest _ hrest
    constructor
    · cases rest with
      | nil => rfl
      | cons c cs => simp [List.takeWhile_cons, hrest c rfl]
    · cases rest with
      | nil => rfl
      | cons c cs => simp [List.dropWhile_cons, hrest c rfl]
  | cons a l ih =>
    intro rest hall hrest
    have ha : p a = true := hall a (List.mem_cons_self a l)
    have ihh := ih rest (fun c hc => hall c (List.mem_cons_of_mem a hc)) hrest
    constructor
    · simp [List.takeWhile_cons, ha, ihh.1]
    · simp [List.dropWhile_cons, ha, ihh.2]

theorem parseNat_natToChars (n : Nat) (rest : List Char)
    (hrest : goodRest rest = true) :
    parseNat (natToChars n ++ rest) = some (n, rest) := by
  have hrest2 : ∀ c, rest.head? = some c →
      ((charToDigit c).isSome : Bool) = false := by
    intro c hc
    cases rest with
    | nil => exact absurd hc (by simp)
    | cons c2 cs =>
      simp only [List.head?_cons, Option.some.injEq] at hc
      subst hc
      simp only [goodRest] at hrest
      simp [Option.isNone_iff_eq_none.mp hrest]
  obtain ⟨htake, hdrop⟩ := takeWhile_append_of_all (natToChars n) rest
    (natToChars_all_digits n) hrest2
  have hne : (natToChars n).isEmpty = false := by
    obtain ⟨d, tl, _, heq⟩ := natToChars_head n
    rw [heq]
    rfl
  unfold parseNat
  simp only [htake, hdrop, hne, Bool.false_eq_true, if_false,
    digitsToNat_natToChars]

theorem hexVal_hexDigit {d : Nat} (h : d < 16) : hexVal (hexDigit d) = some d := by
  interval_cases d <;> decide

theorem parseStringBody_escapeString (s : List Char) (rest : List Char) :
    parseStringBody (escapeString s ++ ('\"' :: rest)) = some (s, rest) := by
  induction s with
  | nil =>
    show parseStringBody ('\"' :: rest) = _
    rw [parseStringBody.eq_def]
    simp
  | cons c s ih =>
    show parseStringBody ((escapeChar c ++ escapeString s) ++ ('\"' :: rest)) = _
    rw [List.append_assoc]
    unfold escapeChar
    by_cases h1 : c = '\"'
    · subst h1
      rw [if_pos rfl, parseStringBody.eq_def]
      simp [unescapeChar, ih]
    rw [if_neg h1]
    by_cases h2 : c = '\\'
    · subst h2
      rw [if_pos rfl, parseStringBody.eq_def]
      simp [unescapeChar, ih]
    rw [if_neg h2]
    by_cases h3 : c = '\x08'
    · subst h3
      rw [if_pos rfl, parseStringBody.eq_def]
      simp [unescapeChar, ih]
    rw [if_neg h3]
    by_cases h4 : c = '\x0c'
    · subst h4
      rw [if_pos rfl, parseStringBody.eq_def]
      simp [unescapeChar, ih]
    rw [if_neg h4]
    by_cases h5 : c = '\n'
    · subst h5
      rw [if_pos rfl, parseStringBody.eq_def]
      simp [unescapeChar, ih]
    rw [if_neg h5]
    by_cases h6 : c = '\r'
    · subst h6
      rw [if_pos rfl, parseStringBody.eq_def]
      simp [unescapeChar, ih]
    rw [if_neg h6]
    by_cases h7 : c = '\t'
    · subst h7
      rw [if_pos rfl, parseStringBody.eq_def]
      simp [unescapeChar, ih]
    rw [if_neg h7]
    by_cases h8 : c.toNat < 32
    · rw [if_pos h8]
      have ha : c.toNat / 16 < 16 := by omega
      have hb : c.toNat % 16 < 16 := by omega
      have hval : c.toNat / 16 * 16 + c.toNat % 16 = c.toNat := by omega
      simp only [List.cons_append, List.nil_append]
      rw [parseStringBody.eq_def]
      simp only [reduceIte, hexVal_hexDigit ha, hexVal_hexDigit hb,
        show hexVal ('0') = some 0 from rfl, ih, Option.map_some]
      rw [if_neg (show ¬(('\\' : Char) = '\"') by decide)]
      simp only [Nat.zero_mul, Nat.zero_add, Nat.add_zero]
      rw [hval, Char.ofNat_toNat]
      rfl
    · rw [if_neg h8]
      simp only [List.cons_append, List.nil_append]
      rw [parseStringBody.eq_def]
      simp only [if_neg h1, if_neg h2, ih, Option.map_some]
      rfl

theorem jsize_pos (v : Json) : 1 ≤ jsize v := by
  cases v <;> simp [jsize]

theorem digitChar_props {d : Nat} (h : d < 10) :
    digitChar d ≠ 'n' ∧ digitChar d ≠ 't' ∧ digitChar d ≠ 'f' ∧
    digitChar d ≠ '\"' ∧ digitChar d ≠ '[' ∧ digitChar d ≠ '\x7b' ∧
    digitChar d ≠ '-' ∧ digitChar d ≠ ']' ∧ digitChar d ≠ '\x7d' := by
  interval_cases d <;> decide

/-- Every printed value starts with a character that is not a closing
bracket or closing brace, so the parser's empty-collection shortcuts
never fire on a non-empty collection body. -/
theorem stringify_head (v : Json) :
    ∃ c tl, stringify v = c :: tl ∧ c ≠ ']' ∧ c ≠ '\x7d' := by
  cases v with
  | null => exact ⟨'n', _, rfl, by decide, by decide⟩
  | bool b =>
    cases b
    · exact ⟨'f', _, rfl, by decide, by decide⟩
    · exact ⟨'t', _, rfl, by decide, by decide⟩
  | num n =>
    show ∃ c tl, intToChars n = c :: tl ∧ c ≠ ']' ∧ c ≠ '\x7d'
    unfold intToChars
    by_cases h : n < 0
    · rw [if_pos h]
      exact ⟨'-', _, rfl, by decide, by decide⟩
    · rw [if_neg h]
      obtain ⟨d, tl, hd, heq⟩ := natToChars_head n.toNat
      rw [heq]
      obtain ⟨_, _, _, _, _, _, _, h8, h9⟩ := digitChar_props hd
      exact ⟨digitChar d, tl, rfl, h8, h9⟩
  | str s => exact ⟨'\"', _, rfl, by decide, by decide⟩
  | arr elems =>
    cases elems with
    | nil => exact ⟨'[', _, rfl, by decide, by decide⟩
    | cons x xs => exact ⟨'[', _, rfl, by decide, by decide⟩
  | obj fields =>
    match fields with
    | [] => exact ⟨'\x7b', _, rfl, by decide, by decide⟩
    | (k, v) :: kvs => exact ⟨'\x7b', _, rfl, by decide, by decide⟩

mutual
theorem jsize_le_length : (v : Json) → jsize v ≤ (stringify v).length
  | .null => by simp [jsize, stringify]
  | .bool b => by cases b <;> simp [jsize, stringify]
  | .num n => by
    obtain ⟨c, tl, heq, _, _⟩ := stringify_head (.num n)
    have h1 : 1 ≤ (stringify (.num n)).length := by rw [heq]; simp
    simpa [jsize] using h1
  | .str s => by
    have e : stringify (.str s) = '\"' :: (escapeString s ++ ['\"']) := rfl
    rw [e]
    simp [jsize]
  | .arr [] => by simp [jsize, jsizeList, stringify]
  | .arr (x :: xs) => by
    have hx := jsize_le_length x
    have hxs := jsizeList_le_length xs
    have e : stringify (.arr (x :: xs)) =
        '[' :: ((stringify x ++ stringifyTail xs) ++ [']']) := rfl
    rw [e]
    simp only [jsize, jsizeList, List.length_cons, List.length_append,
      List.length_singleton]
    omega
  | .obj [] => by simp [jsize, jsizeFields, stringify]
  | .obj ((k, v) :: kvs) => by
    have hv := jsize_le_length v
    have hkvs := jsizeFields_le_length kvs
    have e : stringify (.obj ((k, v) :: kvs)) =
        '\x7b' :: ((('\"' :: (escapeString k ++ ('\"' :: ':' :: stringify v))) ++
          stringifyFieldTail kvs) ++ ['\x7d']) := rfl
    rw [e]
    simp only [jsize, jsizeFields, List.length_cons, List.length_append,
      List.length_singleton]
    omega

theorem jsizeList_le_length : (xs : List Json) → jsizeList xs ≤ (stringifyTail xs).length
  | [] => by simp [jsizeList, stringifyTail]
  | x :: xs => by
    have hx := jsize_le_length x
    have hxs := jsizeList_le_length xs
    have e : stringifyTail (x :: xs) = ',' :: (stringify x ++ stringifyTail xs) := rfl
    rw [e]
    simp only [jsizeList, List.length_cons, List.length_append]
    omega

theorem jsizeFields_le_length :
    (kvs : List (List Char × Json)) → jsizeFields kvs ≤ (stringifyFieldTail kvs).length
  | [] => by simp [jsizeFields, stringifyFieldTail]
  | (k, v) :: kvs => by
    have hv := jsize_le_length v
    have hkvs := jsizeFields_le_length kvs
    have e : stringifyFieldTail ((k, v) :: kvs) =
        ',' :: (('\"' :: (escapeString k ++ ('\"' :: ':' :: stringify v))) ++
          stringifyFieldTail kvs) := rfl
    rw [e]
    simp only [jsizeFields, List.length_cons, List.length_append]
    omega
end


/-- Parsing inverts printing: one value, the elements of a non-empty
array, and the fields of a non-empty object, simultaneously by induction
on the parser fuel. -/
theorem parse_stringify : ∀ fuel : Nat,
    (∀ v rest, jsize v ≤ fuel → goodRest rest = true →
      parseValue fuel (stringify v ++ rest) = some (v, rest)) ∧
    (∀ x xs rest, jsizeList (x :: xs) ≤ fuel →
      parseElems fuel (stringify x ++ (stringifyTail xs ++ (']' :: rest))) =
        some (x :: xs, rest)) ∧
    (∀ k v kvs rest, jsizeFields ((k, v) :: kvs) ≤ fuel →
      parseMembers fuel
          ('\"' :: (escapeString k ++ ('\"' :: ':' ::
            (stringify v ++ (stringifyFieldTail kvs ++ ('\x7d' :: rest)))))) =
        some ((k, v) :: kvs, rest)) := by
  intro fuel
  induction fuel with
  | zero =>
    refine ⟨?_, ?_, ?_⟩
    · intro v rest hsz _
      have := jsize_pos v
      omega
    · intro x xs rest hsz
      rw [show jsizeList (x :: xs) = 1 + jsize x + jsizeList xs from rfl] at hsz
      omega
    · intro k v kvs rest hsz
      rw [show jsizeFields ((k, v) :: kvs) = 1 + jsize v + jsizeFields kvs from rfl] at hsz
      omega
  | succ fuel ih =>
    obtain ⟨ihP, ihQ, ihR⟩ := ih
    refine ⟨?_, ?_, ?_⟩
    · -- one value
      intro v rest hsz hrest
      cases v with
      | null => rfl
      | bool b => cases b <;> rfl
      | num n =>
        show parseValue (fuel + 1) (intToChars n ++ rest) = _
        unfold intToChars
        by_cases h : n < 0
        · rw [if_pos h, List.cons_append]
          have hstep : parseValue (fuel + 1) ('-' :: (natToChars n.natAbs ++ rest)) =
              (parseNat (natToChars n.natAbs ++ rest)).map
                (fun p => (Json.num (-(p.1 : Int)), p.2)) := rfl
          rw [hstep, parseNat_natToChars _ _ hrest]
          have hn : -((n.natAbs : Int)) = n := by omega
          show some (Json.num (-((n.natAbs : Int))), rest) = some (Json.num n, rest)
          rw [hn]
        · rw [if_neg h]
          obtain ⟨d, tl, hd, heq⟩ := natToChars_head n.toNat
          rw [heq, List.cons_append]
          have hstep : parseValue (fuel + 1) (digitChar d :: (tl ++ rest)) =
              (parseNat (digitChar d :: (tl ++ rest))).map
                (fun p => (Json.num ((p.1 : Int)), p.2)) := by
            interval_cases d <;> rfl
          rw [hstep, ← List.cons_append, ← heq, parseNat_natToChars _ _ hrest]
          have hn : ((n.toNat : Int)) = n := Int.toNat_of_nonneg (by omega)
          show some (Json.num ((n.toNat : Int)), rest) = some (Json.num n, rest)
          rw [hn]
      | str s =>
        show parseValue (fuel + 1) (('\"' :: (escapeString s ++ ['\"'])) ++ rest) = _
        rw [List.cons_append, List.append_assoc]
        have hstep : ∀ ls, parseValue (fuel + 1) ('\"' :: ls) =
            (parseStringBody ls).map (fun p => (Json.str p.1, p.2)) := fun ls => rfl
        rw [hstep]
        show (parseStringBody (escapeString s ++ ('\"' :: rest))).map _ = _
        rw [parseStringBody_escapeString]
        rfl
      | arr elems =>
        cases elems with
        | nil => rfl
        | cons x xs =>
          show parseValue (fuel + 1)
              (('[' :: ((stringify x ++ stringifyTail xs) ++ [']'])) ++ rest) = _
          rw [List.cons_append, List.append_assoc, List.append_assoc]
          obtain ⟨c2, tl2, hx, hne1, _⟩ := stringify_head x
          have hstep : ∀ a ls, parseValue (fuel + 1) ('[' :: (a :: ls)) =
              (if a = ']' then some (Json.arr [], ls)
               else (parseElems fuel (a :: ls)).map
                 (fun p => (Json.arr p.1, p.2))) := fun a ls => rfl
          rw [hx, List.cons_append, hstep, if_neg hne1, ← List.cons_append, ← hx]
          have hq := ihQ x xs rest (by
            have : jsize (.arr (x :: xs)) = 1 + jsizeList (x :: xs) := rfl
            omega)
          rw [show ([']'] ++ rest) = (']' :: rest) from rfl, hq]
          rfl
      | obj fields =>
        match fields with
        | [] => rfl
        | (k, v) :: kvs =>
          show parseValue (fuel + 1)
              (('\x7b' :: ((('\"' :: (escapeString k ++ ('\"' :: ':' :: stringify v))) ++
                stringifyFieldTail kvs) ++ ['\x7d'])) ++ rest) = _
          rw [List.cons_append, List.append_assoc, List.append_assoc]
          have hstep : ∀ a ls, parseValue (fuel + 1) ('\x7b' :: (a :: ls)) =
              (if a = '\x7d' then some (Json.obj [], ls)
               else (parseMembers fuel (a :: ls)).map
                 (fun p => (Json.obj p.1, p.2))) := fun a ls => rfl
          rw [List.cons_append, hstep, if_neg (by decide : ¬(('\"' : Char) = '\x7d'))]
          have hr := ihR k v kvs rest (by
            have : jsize (.obj ((k, v) :: kvs)) = 1 + jsizeFields ((k, v) :: kvs) := rfl
            omega)
          rw [show ((['\x7d'] : List Char) ++ rest) = ('\x7d' :: rest) from rfl]
          rw [List.append_assoc, List.cons_append, List.cons_append]
          rw [hr]
          rfl
    · -- elements of a non-empty array
      intro x xs rest hsz
      have hstep : ∀ cs, parseElems (fuel + 1) cs =
          (match parseValue fuel cs with
           | none => none
           | some (v, r) =>
             match r with
             | [] => none
             | c :: r2 =>
               if c = ',' then (parseElems fuel r2).map (fun p => (v :: p.1, p.2))
               else if c = ']' then some ([v], r2)
               else none) := fun cs => rfl
      rw [hstep]
      have hone : parseValue fuel (stringify x ++ (stringifyTail xs ++ (']' :: rest))) =
          some (x, stringifyTail xs ++ (']' :: rest)) := by
        apply ihP
        · simp only [jsizeList] at hsz
          omega
        · cases xs with
          | nil => rfl
          | cons y ys => rfl
      rw [hone]
      cases xs with
      | nil =>
        show (if (']' : Char) = ',' then _ else if (']' : Char) = ']' then _ else _) = _
        rw [if_neg (by decide : ¬((']' : Char) = ',')), if_pos rfl]
      | cons y ys =>
        show (if (',' : Char) = ',' then
            (parseElems fuel ((stringify y ++ stringifyTail ys) ++ (']' :: rest))).map _
          else _) = _
        rw [if_pos rfl, List.append_assoc]
        have hq := ihQ y ys rest (by
          simp only [jsizeList] at hsz ⊢
          have := jsize_pos x
          omega)
        rw [hq]
        rfl
    · -- fields of a non-empty object
      intro k v kvs rest hsz
      have hstep : ∀ ls, parseMembers (fuel + 1) ('\"' :: ls) =
          (match parseStringBody ls with
           | none => none
           | some (k2, r) =>
             match r with
             | [] => none
             | c2 :: r2 =>
               if c2 = ':' then
                 match parseValue fuel r2 with
                 | none => none
                 | some (v2, r3) =>
                   match r3 with
                   | [] => none
                   | c3 :: r4 =>
                     if c3 = ',' then
                       (parseMembers fuel r4).map (fun p => ((k2, v2) :: p.1, p.2))
                     else if c3 = '\x7d' then some ([(k2, v2)], r4)
                     else none
               else none) := fun ls => rfl
      rw [hstep, parseStringBody_escapeString]
      have hone : parseValue fuel
          (stringify v ++ (stringifyFieldTail kvs ++ ('\x7d' :: rest))) =
          some (v, stringifyFieldTail kvs ++ ('\x7d' :: rest)) := by
        apply ihP
        · simp only [jsizeFields] at hsz
          omega
        · cases kvs with
          | nil => rfl
          | cons kv kvs2 =>
            match kv with
            | (k2, v2) => rfl
      show (if (':' : Char) = ':' then _ else _) = _
      rw [if_pos rfl, hone]
      cases kvs with
      | nil =>
        show (if ('\x7d' : Char) = ',' then _
          else if ('\x7d' : Char) = '\x7d' then _ else _) = _
        rw [if_neg (by decide : ¬(('\x7d' : Char) = ',')), if_pos rfl]
      | cons kv kvs2 =>
        match kv with
        | (k2, v2) =>
          show (if (',' : Char) = ',' then
              (parseMembers fuel ((('\"' :: (escapeString k2 ++ ('\"' :: ':' :: stringify v2))) ++
                stringifyFieldTail kvs2) ++ ('\x7d' :: rest))).map _
            else _) = _
          rw [if_pos rfl, List.append_assoc, List.cons_append, List.append_assoc,
            List.cons_append, List.cons_append]
          have hr := ihR k2 v2 kvs2 rest (by
            simp only [jsizeFields] at hsz ⊢
            have := jsize_pos v
            omega)
          rw [hr]
          rfl

/-- Round trip of the whole-input parse over the printer. -/
theorem parseJson_stringify (v : Json) : parseJson (stringify v) = some v := by
  have hfuel : jsize v ≤ (stringify v).length := jsize_le_length v
  unfold parseJson
  have h := (parse_stringify ((stringify v).length + 1)).1 v [] (by omega) rfl
  rw [List.append_nil] at h
  rw [h]

/-- The printer is injective, so `JSON.stringify`-comparison is deep
value equality on JSON-representable values. -/
theorem stringify_injective {v w : Json} (h : stringify v = stringify w) : v = w := by
  have hv := parseJson_stringify v
  have hw := parseJson_stringify w
  rw [h] at hv
  rw [hw] at hv
  exact (Option.some.inj hv).symm

/-- `isEqual` decides deep value equality on cached JS values. -/
theorem isEqual_iff (a b : Option Json) : isEqual a b = true ↔ a = b := by
  constructor
  · intro h
    simp only [isEqual, beq_iff_eq] at h
    cases a with
    | none =>
      cases b with
      | none => rfl
      | some w => simp [stringifyJs] at h
    | some v =>
      cases b with
      | none => simp [stringifyJs] at h
      | some w =>
        simp only [stringifyJs, Option.some.injEq] at h
        rw [stringify_injective h]
  · intro h
    subst h
    simp [isEqual]

theorem assocLookup_cons {α : Type} (k1 : String) (v1 : α)
    (rest : List (String × α)) (key : String) :
    assocLookup ((k1, v1) :: rest) key =
      if k1 = key then some v1 else assocLookup rest key := rfl

theorem assocLookup_replace {α : Type} (key : String) (v : α) :
    ∀ l : List (String × α), (assocLookup l key).isSome →
      assocLookup (l.map (fun kv => if kv.1 = key then (key, v) else kv)) key =
        some v := by
  intro l
  induction l with
  | nil => intro h; simp [assocLookup] at h
  | cons kv rest ih =>
    intro h
    obtain ⟨k1, v1⟩ := kv
    rw [assocLookup_cons] at h
    simp only [List.map_cons]
    by_cases hk : k1 = key
    · subst hk
      show assocLookup ((if k1 = k1 then (k1, v) else (k1, v1)) :: _) k1 = some v
      rw [if_pos rfl, assocLookup_cons, if_pos rfl]
    · rw [if_neg hk] at h
      show assocLookup ((if k1 = key then (key, v) else (k1, v1)) :: _) key = some v
      rw [if_neg hk, assocLookup_cons, if_neg hk]
      exact ih h

theorem assocLookup_append_right {α : Type} (key : String) :
    ∀ (l l2 : List (String × α)), assocLookup l key = none →
      assocLookup (l ++ l2) key = assocLookup l2 key := by
  intro l l2
  induction l with
  | nil => intro _; rfl
  | cons kv rest ih =>
    intro h
    obtain ⟨k1, v1⟩ := kv
    rw [assocLookup_cons] at h
    by_cases hk : k1 = key
    · rw [if_pos hk] at h
      exact absurd h (by simp)
    · rw [if_neg hk] at h
      show assocLookup ((k1, v1) :: (rest ++ l2)) key = _
      rw [assocLookup_cons, if_neg hk]
      exact ih h

theorem assocLookup_assocSet {α : Type} (l : List (String × α)) (key : String)
    (v : α) : assocLookup (assocSet l key v) key = some v := by
  unfold assocSet
  by_cases h : (assocLookup l key).isSome
  · rw [if_pos h]
    exact assocLookup_replace key v l h
  · rw [if_neg h]
    rw [assocLookup_append_right key l [(key, v)]
      (Option.not_isSome_iff_eq_none.mp h)]
    simp [assocLookup]

theorem assocLookup_assocRemove {α : Type} (key : String) :
    ∀ l : List (String × α), assocLookup (assocRemove l key) key = none := by
  intro l
  induction l with
  | nil => rfl
  | cons kv rest ih =>
    obtain ⟨k1, v1⟩ := kv
    by_cases hk : k1 = key
    · subst hk
      have e : assocRemove ((k1, v1) :: rest) k1 = assocRemove rest k1 := by
        simp [assocRemove, List.filter_cons]
      rw [e]
      exact ih
    · have e : assocRemove ((k1, v1) :: rest) key =
          (k1, v1) :: assocRemove rest key := by
        simp [assocRemove, List.filter_cons, hk]
      rw [e, assocLookup_cons, if_neg hk]
      exact ih

/-- After any cache update the cached value for the key is exactly the
value the update carried (deep-equal updates keep the record whose
current value is already that value; others overwrite the binding). -/
theorem jsIndex_updateValue (prev : Option Cache) (key : String)
    (w : Option Json) : jsIndex (some (updateValue prev key w)) key = w := by
  unfold updateValue
  by_cases h : isEqual (jsIndex prev key) w = true
  · rw [if_pos h]
    have heq : jsIndex prev key = w := (isEqual_iff _ _).mp h
    cases prev with
    | none =>
      simp only [jsIndex, assocLookup, Option.getD_none] at heq ⊢
      exact heq
    | some c => exact heq
  · rw [if_neg h]
    simp [jsIndex, assocLookup_assocSet]

theorem runBurst_within (r : Nat) :
    ∀ (ts : List Nat) (prev : Nat), burstOk (prev :: ts) = true →
      ∃ last, runBurst ⟨some (prev + 50), r⟩ ts = ⟨some (last + 50), r⟩ := by
  intro ts
  induction ts with
  | nil =>
    intro prev _
    exact ⟨prev, rfl⟩
  | cons t ts ih =>
    intro prev hok
    have hok2 : (prev ≤ t ∧ t < prev + 50) ∧ burstOk (t :: ts) = true := by
      have e : burstOk (prev :: t :: ts) =
          ((decide (prev ≤ t) && decide (t < prev + 50)) && burstOk (t :: ts)) := rfl
      rw [e] at hok
      simp only [Bool.and_eq_true, decide_eq_true_eq] at hok
      exact ⟨⟨hok.1.1, hok.1.2⟩, hok.2⟩
    obtain ⟨⟨h1, h2⟩, h3⟩ := hok2
    show ∃ last, runBurst (handleStorageChange ⟨some (prev + 50), r⟩ t) ts = _
    have hfd : fireDue ⟨some (prev + 50), r⟩ t = ⟨some (prev + 50), r⟩ := by
      show (if prev + 50 ≤ t then (⟨none, r + 1⟩ : DebounceState)
        else ⟨some (prev + 50), r⟩) = ⟨some (prev + 50), r⟩
      rw [if_neg (by omega)]
    have hh : handleStorageChange ⟨some (prev + 50), r⟩ t = ⟨some (t + 50), r⟩ := by
      show (⟨some (t + 50), (fireDue ⟨some (prev + 50), r⟩ t).reads⟩ : DebounceState) = _
      rw [hfd]
    rw [hh]
    exact ih t h3

/-- C1 as stated is false on the code: a stored entry that decodes to
null is exposed as the caller's fallback default, not as null, because
the hook exposes the cached value through nullish coalescing
(`?? options?.initialValue`); the repository's own "should handle null
values" test pins this behaviour. -/
theorem claim1_counterexample :
    readValue true [("k", ['n', 'u', 'l', 'l'])] ("k") jsonSerializer =
      .ok (some .null) ∧
    exposedValue
      (readValueFromStorage true [("k", ['n', 'u', 'l', 'l'])] ("k")
        jsonSerializer ⟨none, none, true⟩) ("k") (some (.num 1)) =
      some (.num 1) ∧
    some (Json.num 1) ≠ some Json.null := by
  refine ⟨rfl, rfl, by simp⟩

/-- C1 amended: with a stored entry the decoded value takes priority
over the fallback default whenever it is not null, even when deep-equal
to the default; an entry decoding to null is instead exposed as the
default; with no entry the default is exposed while the store passes
through unchanged and the cache gains no value for the key. -/
theorem claim1_fallback_priority (store : Store) (key : String)
    (d : Option Json) (st : ObserverState) :
    (∀ v, readValue true store key jsonSerializer = .ok (some v) → v ≠ .null →
      exposedValue (readValueFromStorage true store key jsonSerializer st) key d =
        some v) ∧
    (readValue true store key jsonSerializer = .ok (some .null) →
      exposedValue (readValueFromStorage true store key jsonSerializer st) key d =
        d) ∧
    (getItem store key = none →
      exposedValue (readValueFromStorage true store key jsonSerializer st) key d =
        d ∧
      (readCycle true key jsonSerializer store st).2 = store ∧
      jsIndex (readValueFromStorage true store key jsonSerializer st).cache key =
        none) := by
  refine ⟨?_, ?_, ?_⟩
  · intro v hv hnn
    have hst : readValueFromStorage true store key jsonSerializer st =
        ⟨none, some (updateValue st.cache key (some v)), false⟩ := by
      simp [readValueFromStorage, hv]
    rw [hst]
    show nullishCoalesce (jsIndex (some (updateValue st.cache key (some v))) key) d =
      some v
    rw [jsIndex_updateValue]
    cases v with
    | null => exact absurd rfl hnn
    | bool b => rfl
    | num n => rfl
    | str s => rfl
    | arr xs => rfl
    | obj kvs => rfl
  · intro hv
    have hst : readValueFromStorage true store key jsonSerializer st =
        ⟨none, some (updateValue st.cache key (some .null)), false⟩ := by
      simp [readValueFromStorage, hv]
    rw [hst]
    show nullishCoalesce (jsIndex (some (updateValue st.cache key (some .null))) key)
      d = d
    rw [jsIndex_updateValue]
    rfl
  · intro hget
    have hv : readValue true store key jsonSerializer = .ok none := by
      simp [readValue, hget]
    have hst : readValueFromStorage true store key jsonSerializer st =
        ⟨none, some (updateValue st.cache key none), false⟩ := by
      simp [readValueFromStorage, hv]
    refine ⟨?_, rfl, ?_⟩
    · rw [hst]
      show nullishCoalesce (jsIndex (some (updateValue st.cache key none)) key) d = d
      rw [jsIndex_updateValue]
      rfl
    · rw [hst]
      show jsIndex (some (updateValue st.cache key none)) key = none
      exact jsIndex_updateValue st.cache key none

theorem claim1_witness :
    exposedValue
      (readValueFromStorage true [("k", ['1'])] ("k") jsonSerializer
        ⟨none, none, true⟩) ("k") (some (.num 7)) = some (.num 1) ∧
    exposedValue
      (readValueFromStorage true [] ("k") jsonSerializer ⟨none, none, true⟩)
      ("k") (some (.num 7)) = some (.num 7) :=
  ⟨(claim1_fallback_priority [("k", ['1'])] ("k") (some (.num 7))
      ⟨none, none, true⟩).1 (.num 1) rfl (by simp),
   ((claim1_fallback_priority [] ("k") (some (.num 7)) ⟨none, none, true⟩).2.2
      rfl).1⟩

/-- C2: a stored entry the codec cannot decode leaves the exposed value
undefined even when a fallback default was supplied, sets a typed
deserialization error naming the operation and the key, and the read
cycle passes the store through unchanged. -/
theorem claim2_corrupt_entry (store : Store) (key : String) (s : Serializer)
    (item : List Char) (e : JsError) (st : ObserverState) (d : Option Json)
    (hitem : getItem store key = some item)
    (hde : s.deserialize item = .error e) :
    exposedValue (readValueFromStorage true store key s st) key d = none ∧
    (readValueFromStorage true store key s st).error =
      some ⟨"LocalStorageError",
        "Error deserializing localStorage key \"" ++ key ++ "\"",
        some (.optionsBag e)⟩ ∧
    (readCycle true key s store st).2 = store := by
  have hv : readValue true store key s =
      .error ⟨"LocalStorageError",
        "Error deserializing localStorage key \"" ++ key ++ "\"",
        some (.optionsBag e)⟩ := by
    simp [readValue, hitem, hde]
  have hst : readValueFromStorage true store key s st =
      ⟨some ⟨"LocalStorageError",
        "Error deserializing localStorage key \"" ++ key ++ "\"",
        some (.optionsBag e)⟩, some (updateValue st.cache key none), false⟩ := by
    simp [readValueFromStorage, hv]
  rw [hst]
  exact ⟨rfl, rfl, rfl⟩

theorem claim2_witness :
    exposedValue
      (readValueFromStorage true [("k", ['x'])] ("k") jsonSerializer
        ⟨none, none, true⟩) ("k") (some (.num 7)) = none ∧
    (readValueFromStorage true [("k", ['x'])] ("k") jsonSerializer
      ⟨none, none, true⟩).error =
      some ⟨"LocalStorageError",
        "Error deserializing localStorage key \"" ++ "k" ++ "\"",
        some (.optionsBag ⟨"Unexpected token in JSON"⟩)⟩ :=
  ⟨(claim2_corrupt_entry [("k", ['x'])] ("k") jsonSerializer ['x']
      ⟨"Unexpected token in JSON"⟩ ⟨none, none, true⟩ (some (.num 7)) rfl rfl).1,
   (claim2_corrupt_entry [("k", ['x'])] ("k") jsonSerializer ['x']
      ⟨"Unexpected token in JSON"⟩ ⟨none, none, true⟩ (some (.num 7)) rfl rfl).2.1⟩

/-- C3: for the default JSON codec, deserialising the serialised form of
any JSON-representable value yields the value back. -/
theorem claim3_roundtrip (v : Json) :
    jsonSerializer.serialize v = .ok (stringify v) ∧
    jsonSerializer.deserialize (stringify v) = .ok v := by
  refine ⟨rfl, ?_⟩
  simp [jsonSerializer, parseJson_stringify]

/-- C4: when the codec's encode step fails, `setValue` raises a typed
error carrying the operation context and the original failure, the
store is left unchanged with nothing dispatched; the write happens
exactly when encode succeeds. -/
theorem claim4_encode_failure (store : Store) (key : String) (s : Serializer)
    (v : Json) :
    (∀ e, s.serialize v = .error e →
      setValue true store key s (some v) =
        ⟨store, false,
          .error ⟨"LocalStorageError",
            "Error setting localStorage key \"" ++ key ++ "\"",
            some (.errorValue e)⟩⟩) ∧
    (∀ text, s.serialize v = .ok text →
      setValue true store key s (some v) =
        ⟨setItem store key text, true, .ok ()⟩) := by
  constructor
  · intro e he
    simp [setValue, he]
  · intro text ht
    simp [setValue, ht]

theorem claim4_witness :
    setValue true [] ("k") failingSerializer (some (.num 1)) =
      ⟨[], false,
        .error ⟨"LocalStorageError",
          "Error setting localStorage key \"" ++ "k" ++ "\"",
          some (.errorValue ⟨"Serialization failed"⟩)⟩⟩ ∧
    setValue true [] ("k") jsonSerializer (some (.bool true)) =
      ⟨setItem [] ("k") (stringify (.bool true)), true, .ok ()⟩ :=
  ⟨(claim4_encode_failure [] ("k") failingSerializer (.num 1)).1
      ⟨"Serialization failed"⟩ rfl,
   (claim4_encode_failure [] ("k") jsonSerializer (.bool true)).2
      (stringify (.bool true)) rfl⟩

/-- C5: `setValue` with no value removes the stored entry, a subsequent
read yields absent and the exposed value becomes undefined; setting an
empty string instead retains a stored entry. -/
theorem claim5_delete_semantics (store : Store) (key : String)
    (st : ObserverState) :
    (setValue true store key jsonSerializer none).store = removeItem store key ∧
    (setValue true store key jsonSerializer none).result = .ok () ∧
    getItem (setValue true store key jsonSerializer none).store key = none ∧
    readValue true (setValue true store key jsonSerializer none).store key
      jsonSerializer = .ok none ∧
    exposedValue
      (readValueFromStorage true (setValue true store key jsonSerializer none).store
        key jsonSerializer st) key none = none ∧
    getItem (setValue true store key jsonSerializer (some (.str []))).store key =
      some ['\"', '\"'] := by
  have hrm : (setValue true store key jsonSerializer none).store =
      removeItem store key := rfl
  have hget : getItem (removeItem store key) key = none :=
    assocLookup_assocRemove key store
  have hv : readValue true (removeItem store key) key jsonSerializer = .ok none := by
    simp [readValue, hget]
  refine ⟨rfl, rfl, ?_, ?_, ?_, ?_⟩
  · rw [hrm]
    exact hget
  · rw [hrm]
    exact hv
  · rw [hrm]
    have hst : readValueFromStorage true (removeItem store key) key jsonSerializer
        st = ⟨none, some (updateValue st.cache key none), false⟩ := by
      simp [readValueFromStorage, hv]
    rw [hst]
    show nullishCoalesce (jsIndex (some (updateValue st.cache key none)) key) none =
      none
    rw [jsIndex_updateValue]
    rfl
  · show getItem (setItem store key (stringify (.str []))) key = _
    rw [show stringify (.str []) = ['\"', '\"'] from rfl]
    exact assocLookup_assocSet store key _

/-- C6 as stated is false on the code: from the uninitialized cache (the
shared atom still `undefined`), updating with a deep-equal value yields
a fresh empty record, not the previous cache value, so the atom does
change. -/
theorem claim6_counterexample :
    ¬ (∀ (prev : Option Cache) (key : String) (v : Option Json),
        jsIndex prev key = v → some (updateValue prev key v) = prev) := by
  intro h
  exact Option.noConfusion (h none ("k") none rfl)

/-- C6 amended: on an initialized cache a deep-equal update returns the
very same record (no mutation, hence no downstream re-render), and a
non-deep-equal update replaces the binding for the key with the new
value, changing the record. -/
theorem claim6_equality_gated_update (c : Cache) (key : String)
    (v : Option Json) :
    (jsIndex (some c) key = v → updateValue (some c) key v = c) ∧
    (∀ prev : Option Cache, jsIndex prev key ≠ v →
      jsIndex (some (updateValue prev key v)) key = v) ∧
    (∀ prev : Option Cache, jsIndex prev key ≠ v →
      some (updateValue prev key v) ≠ prev) := by
  refine ⟨?_, ?_, ?_⟩
  · intro h
    unfold updateValue
    rw [if_pos ((isEqual_iff _ _).mpr h)]
    rfl
  · intro prev _
    exact jsIndex_updateValue prev key v
  · intro prev h heq
    have hv : jsIndex (some (updateValue prev key v)) key = v :=
      jsIndex_updateValue prev key v
    rw [heq] at hv
    exact h hv

theorem claim6_witness :
    updateValue (some [("k", some (.num 2))]) ("k") (some (.num 2)) =
      [("k", some (.num 2))] ∧
    jsIndex (some (updateValue none ("k") (some (.num 3)))) ("k") =
      some (.num 3) :=
  ⟨(claim6_equality_gated_update [("k", some (.num 2))] ("k")
      (some (.num 2))).1 rfl,
   (claim6_equality_gated_update [] ("k") (some (.num 3))).2.1 none
      (by simp [jsIndex])⟩

/-- C7: a burst of N notifications inside the debounce window triggers
exactly one re-read after the burst settles, because every notification
clears any pending timer and schedules a single fresh 50 ms timer. -/
theorem claim7_debounce_coalescing (t : Nat) (ts : List Nat)
    (hok : burstOk (t :: ts) = true) :
    settleBurst (runBurst ⟨none, 0⟩ (t :: ts)) = ⟨none, 1⟩ ∧
    (∀ s now, (handleStorageChange s now).pending = some (now + 50)) := by
  constructor
  · show settleBurst (runBurst (handleStorageChange ⟨none, 0⟩ t) ts) = _
    have h0 : handleStorageChange ⟨none, 0⟩ t = ⟨some (t + 50), 0⟩ := rfl
    rw [h0]
    obtain ⟨last, hl⟩ := runBurst_within 0 ts t hok
    rw [hl]
    rfl
  · intro s now
    rfl

theorem claim7_witness :
    burstOk [0, 10, 20] = true ∧
    settleBurst (runBurst ⟨none, 0⟩ [0, 10, 20]) = ⟨none, 1⟩ :=
  ⟨by decide, (claim7_debounce_coalescing 0 [10, 20] (by decide)).1⟩

/-- C8 is the intent, and the code violates it on the read path: the
deserialization wrapper passes the object literal holding the caught
error, not the error itself, as the `cause` constructor argument
(src/useLocalStorage.ts lines 44-47, against the `cause?: Error`
signature of src/error.ts and against the direct `error as Error` at
lines 68-71), so the typed error's `cause.message` is undefined where
the repository's own test expects the original message. -/
theorem claim8_cause_bug :
    readValue true [("test-key", ['s'])] ("test-key") failingSerializer =
      .error ⟨"LocalStorageError",
        "Error deserializing localStorage key \"" ++ "test-key" ++ "\"",
        some (.optionsBag ⟨"Deserialization failed during read"⟩)⟩ ∧
    (some (ErrorCause.optionsBag ⟨"Deserialization failed during read"⟩)).bind
      causeMessage = none ∧
    causeMessage (.errorValue ⟨"Deserialization failed during read"⟩) =
      some ("Deserialization failed during read") :=
  ⟨rfl, rfl, rfl⟩

/-- C9 as stated is false on the code: the `useCallback` dependency
array is `[key, serializer]`, so passing a different serializer under an
unchanged key also rebuilds `setValue`. -/
theorem claim9_counterexample :
    ¬ (∀ r1 r2 : RenderInput,
        setValueIdentityPreserved r1 r2 = true ↔ r1.key = r2.key) := by
  intro h
  have hc := (h ⟨"k", 0⟩ ⟨"k", 1⟩).mpr rfl
  simp [setValueIdentityPreserved, setValueCallbackDeps] at hc

/-- C9 amended: the returned `setValue` keeps its referential identity
across re-renders exactly when both the key and the memoized serializer
reference are unchanged. -/
theorem claim9_identity (r1 r2 : RenderInput) :
    setValueIdentityPreserved r1 r2 = true ↔
      r1.key = r2.key ∧ r1.serializerRef = r2.serializerRef := by
  simp [setValueIdentityPreserved, setValueCallbackDeps, Prod.ext_iff]

/-- C10: without a window (server-side rendering) `setValue` returns
successfully without touching the store and without dispatching the
same-process notification, and a read yields absent with a result
independent of the codec. -/
theorem claim10_ssr (store : Store) (key : String) (s : Serializer)
    (value : Option Json) :
    setValue false store key s value = ⟨store, false, .ok ()⟩ ∧
    readValue false store key s = .ok none ∧
    (∀ s2 : Serializer, readValue false store key s = readValue false store key s2) :=
  ⟨rfl, rfl, fun _ => rfl⟩
